import Mathlib

/-!
Verification of the referral-tracking backend (`src/server.js`).

The server is a set of Express request handlers over a Postgres store with
three tables (`users`, `deposits`, `referral_earnings`).  We shallowly embed
the persisted state as Lean lists of records and each handler as a pure
function from that state (plus the request inputs) to a response value and a
new state.  Conventions of the embedding:

* SQL `numeric` / JS number monetary values are modelled as `Rat` (the code
  itself has no float-rounding-dependent branches; all claims are about exact
  bookkeeping identities).
* SQL rows keep their table order; `SELECT ... WHERE` is `List.filter`,
  a unique-key lookup is `List.find?`, `INSERT` appends, `UPDATE` maps.
* Serial primary keys are modelled with explicit `next…Id` counters.
* JS falsiness of a request field: a missing/empty `email` is `""`, a
  missing/zero numeric `amount` is `0`.
* `NOW()` / timestamps are an abstract `Nat` passed in as `now`.
-/

/-- Status of a `referral_earnings` row: the SQL strings `'pending'` and
`'claimed'`. -/
inductive EarningStatus where
  | pending
  | claimed
deriving DecidableEq, Repr

/-- A row of the `users` table. -/
structure User where
  id : Nat
  email : String
  referralCode : String
  referredByCode : Option String
  balance : Rat
  createdAt : Nat
deriving DecidableEq, Repr

/-- A row of the `deposits` table. -/
structure Deposit where
  id : Nat
  userId : Nat
  amount : Rat
  status : String
  createdAt : Nat
deriving DecidableEq, Repr

/-- A row of the `referral_earnings` table. -/
structure Earning where
  id : Nat
  referrerId : Nat
  referredUserId : Nat
  depositId : Nat
  level : Nat
  percentage : Rat
  amount : Rat
  status : EarningStatus
  createdAt : Nat
  claimedAt : Option Nat
deriving DecidableEq, Repr

/-- The whole persisted state (the three tables plus serial-id counters). -/
structure DB where
  users : List User
  deposits : List Deposit
  earnings : List Earning
  nextUserId : Nat
  nextDepositId : Nat
  nextEarningId : Nat
deriving DecidableEq, Repr

/-! ## MD5 (the `crypto.createHash('md5')...digest('hex')` collaborator)

`generateReferralCode` hashes the normalized email with MD5.  We embed MD5
itself (RFC 1321) over `Nat` with explicit `% 2 ^ 32` reductions, producing
the 16 digest bytes and their lowercase-hex rendering exactly as
`digest('hex')` does. -/

/-- `2 ^ 32`, the word modulus of MD5. -/
def m32 : Nat := 4294967296

/-- Bitwise complement on a 32-bit word. -/
def mnot32 (x : Nat) : Nat := Nat.xor x 4294967295

/-- Left-rotation of a 32-bit word by `c` (for `c ≤ 32`). -/
def rotl32 (x c : Nat) : Nat :=
  ((x % m32) * 2 ^ c) % m32 + (x % m32) / 2 ^ (32 - c)

/-- The 64 MD5 sine-table constants `K[i]` (RFC 1321). -/
def md5K : List Nat :=
  [0xd76aa478, 0xe8c7b756, 0x242070db, 0xc1bdceee,
   0xf57c0faf, 0x4787c62a, 0xa8304613, 0xfd469501,
   0x698098d8, 0x8b44f7af, 0xffff5bb1, 0x895cd7be,
   0x6b901122, 0xfd987193, 0xa679438e, 0x49b40821,
   0xf61e2562, 0xc040b340, 0x265e5a51, 0xe9b6c7aa,
   0xd62f105d, 0x02441453, 0xd8a1e681, 0xe7d3fbc8,
   0x21e1cde6, 0xc33707d6, 0xf4d50d87, 0x455a14ed,
   0xa9e3e905, 0xfcefa3f8, 0x676f02d9, 0x8d2a4c8a,
   0xfffa3942, 0x8771f681, 0x6d9d6122, 0xfde5380c,
   0xa4beea44, 0x4bdecfa9, 0xf6bb4b60, 0xbebfbc70,
   0x289b7ec6, 0xeaa127fa, 0xd4ef3085, 0x04881d05,
   0xd9d4d039, 0xe6db99e5, 0x1fa27cf8, 0xc4ac5665,
   0xf4292244, 0x432aff97, 0xab9423a7, 0xfc93a039,
   0x655b59c3, 0x8f0ccc92, 0xffeff47d, 0x85845dd1,
   0x6fa87e4f, 0xfe2ce6e0, 0xa3014314, 0x4e0811a1,
   0xf7537e82, 0xbd3af235, 0x2ad7d2bb, 0xeb86d391]

/-- The 64 MD5 per-round shift amounts `s[i]` (RFC 1321). -/
def md5S : List Nat :=
  [7, 12, 17, 22, 7, 12, 17, 22, 7, 12, 17, 22, 7, 12, 17, 22,
   5, 9, 14, 20, 5, 9, 14, 20, 5, 9, 14, 20, 5, 9, 14, 20,
   4, 11, 16, 23, 4, 11, 16, 23, 4, 11, 16, 23, 4, 11, 16, 23,
   6, 10, 15, 21, 6, 10, 15, 21, 6, 10, 15, 21, 6, 10, 15, 21]

/-- One MD5 round operation on the state `(a, b, c, d)` for round index `i`,
over the 16 message words `w` of the current chunk. -/
def md5Step (w : List Nat) (st : Nat × Nat × Nat × Nat) (i : Nat) :
    Nat × Nat × Nat × Nat :=
  let a := st.1
  let b := st.2.1
  let c := st.2.2.1
  let d := st.2.2.2
  let fg : Nat × Nat :=
    if i < 16 then (Nat.lor (Nat.land b c) (Nat.land (mnot32 b) d), i)
    else if i < 32 then
      (Nat.lor (Nat.land d b) (Nat.land (mnot32 d) c), (5 * i + 1) % 16)
    else if i < 48 then (Nat.xor (Nat.xor b c) d, (3 * i + 5) % 16)
    else (Nat.xor c (Nat.lor b (mnot32 d)), (7 * i) % 16)
  let f := (fg.1 + a + md5K.getD i 0 + w.getD fg.2 0) % m32
  (d, (b + rotl32 f (md5S.getD i 0)) % m32, b, c)

/-- Process one 512-bit chunk (16 words `w`) into the running MD5 state. -/
def md5Chunk (w : List Nat) (h : Nat × Nat × Nat × Nat) :
    Nat × Nat × Nat × Nat :=
  let r := (List.range 64).foldl (md5Step w) h
  ((h.1 + r.1) % m32, (h.2.1 + r.2.1) % m32,
   (h.2.2.1 + r.2.2.1) % m32, (h.2.2.2 + r.2.2.2) % m32)

/-- MD5 padding: append `0x80`, zero bytes to 56 mod 64, then the original
bit length as a 64-bit little-endian quantity. -/
def md5Pad (msg : List Nat) : List Nat :=
  let len := msg.length
  let zeros := (119 - len % 64) % 64
  let bitLen := (8 * len) % 2 ^ 64
  msg ++ 128 :: List.replicate zeros 0
      ++ ((List.range 8).map fun i => bitLen / 2 ^ (8 * i) % 256)

/-- The 16 MD5 digest bytes of a byte-list message. -/
def md5Bytes (msg : List Nat) : List Nat :=
  let padded := md5Pad msg
  let word := fun (off : Nat) =>
    padded.getD off 0 % 256 + 256 * (padded.getD (off + 1) 0 % 256)
      + 65536 * (padded.getD (off + 2) 0 % 256)
      + 16777216 * (padded.getD (off + 3) 0 % 256)
  let h := (List.range (padded.length / 64)).foldl
    (fun h ci =>
      md5Chunk ((List.range 16).map fun j => word (64 * ci + 4 * j)) h)
    (0x67452301, 0xefcdab89, 0x98badcfe, 0x10325476)
  [h.1, h.2.1, h.2.2.1, h.2.2.2].flatMap fun x =>
    (List.range 4).map fun i => x / 2 ^ (8 * i) % 256

/-- The sixteen lowercase hex digit characters. -/
def hexDigitChars : List Char := "0123456789abcdef".data

/-- Lowercase hex character of a digit value. -/
def hexDigitChar (n : Nat) : Char := hexDigitChars.getD n '0'

/-- The two hex characters of one byte. -/
def byteToHexChars (b : Nat) : List Char :=
  [hexDigitChar (b / 16), hexDigitChar (b % 16)]

/-- The lowercase-hex MD5 digest of a string (UTF-8 encoded), as a character
list: the embedding of `crypto.createHash('md5').update(s).digest('hex')`. -/
def md5HexChars (s : String) : List Char :=
  (md5Bytes (s.toUTF8.toList.map UInt8.toNat)).flatMap byteToHexChars

/-! ## `parseInt(..., 16)` and `generateReferralCode` -/

/-- The numeric value of one hex character, if it is a hex digit. -/
def hexCharVal (c : Char) : Option Nat :=
  if '0' ≤ c ∧ c ≤ '9' then some (c.toNat - '0'.toNat)
  else if 'a' ≤ c ∧ c ≤ 'f' then some (c.toNat - 'a'.toNat + 10)
  else if 'A' ≤ c ∧ c ≤ 'F' then some (c.toNat - 'A'.toNat + 10)
  else none

/-- Value of a list of hex digits, most significant first. -/
def hexVal (l : List Char) : Nat :=
  l.foldl (fun n c => 16 * n + (hexCharVal c).getD 0) 0

/-- Optional leading sign of a numeric literal, with the remaining
characters. -/
def stripSign (l : List Char) : Int × List Char :=
  match l with
  | '-' :: r => (-1, r)
  | '+' :: r => (1, r)
  | _ => (1, l)

/-- Optional `0x`/`0X` prefix of a hex literal. -/
def strip0x (l : List Char) : List Char :=
  match l with
  | '0' :: 'x' :: r => r
  | '0' :: 'X' :: r => r
  | _ => l

/-- Embedding of JS `parseInt(s, 16)`: skip leading whitespace, optional
sign, optional `0x`/`0X` prefix, then the longest prefix of hex digits;
`none` models the `NaN` result when no digit is found. -/
def jsParseIntHex (l : List Char) : Option Int :=
  let s := stripSign (l.dropWhile Char.isWhitespace)
  let ds := (strip0x s.2).takeWhile fun c => (hexCharVal c).isSome
  if ds.isEmpty then none else some (s.1 * (hexVal ds : Int))

/-- Embedding of JS `Number.prototype.toString` on an integer value. -/
def jsIntToString (i : Int) : String :=
  if i < 0 then "-" ++ Nat.repr i.natAbs else Nat.repr i.toNat

/-- The email normalization applied everywhere in the source:
`email.toLowerCase().trim()` — character-wise lowercasing followed by
stripping leading and trailing whitespace. -/
def normalizeEmail (email : String) : String :=
  ⟨(((email.data.map Char.toLower).dropWhile
      Char.isWhitespace).reverse.dropWhile Char.isWhitespace).reverse⟩

/-- `generateReferralCode` (src/server.js:33-38): MD5 the lowercased trimmed
email, take the first 8 hex characters, read them as an unsigned integer,
reduce `% 900000`, add `100000`, render in decimal.  JS `%` on integers is
truncated remainder, i.e. `Int.tmod`; the `none` branch models the
`"NaN"` string a failed `parseInt` would propagate to `toString`. -/
def generateReferralCode (email : String) : String :=
  let hash := md5HexChars (normalizeEmail email)
  match jsParseIntHex (hash.take 8) with
  | some numericHash => jsIntToString (numericHash.tmod 900000 + 100000)
  | none => "NaN"

/-! ## Identity resolution and user creation -/

/-- `findUserByEmail` (src/server.js:40-43):
`SELECT * FROM users WHERE email = $1` with the normalized email;
`rows[0] || null` is the first matching row. -/
def findUserByEmail (db : DB) (email : String) : Option User :=
  db.users.find? fun u => u.email == normalizeEmail email

/-- `findUserByReferralCode` (src/server.js:45-48). -/
def findUserByReferralCode (db : DB) (code : String) : Option User :=
  db.users.find? fun u => u.referralCode == code

/-- `createUser` (src/server.js:50-57): insert a new user with a derived
referral code, zero balance and the current timestamp, returning the row. -/
def createUser (db : DB) (email : String) (referredByCode : Option String)
    (now : Nat) : User × DB :=
  let u : User :=
    { id := db.nextUserId
      email := normalizeEmail email
      referralCode := generateReferralCode email
      referredByCode := referredByCode
      balance := 0
      createdAt := now }
  (u, { db with users := db.users ++ [u], nextUserId := db.nextUserId + 1 })

/-! ## Ancestor chain walker -/

/-- One step of the chain walk (src/server.js:65-68): the SQL join
`SELECT u2.* FROM users u1 JOIN users u2 ON u1.referred_by_code =
u2.referral_code WHERE u1.id = $1` — a NULL `referred_by_code` joins
nothing. -/
def lookupReferrer (db : DB) (uid : Nat) : Option User :=
  match db.users.find? fun u => u.id == uid with
  | none => none
  | some u1 =>
    match u1.referredByCode with
    | none => none
    | some code => db.users.find? fun u2 => u2.referralCode == code

/-- The `while (level < maxLevel)` loop of `getReferrerChain`
(src/server.js:59-78); `fuel` is the remaining `maxLevel - level`
iterations and `level` the current loop counter. -/
def getReferrerChainAux (db : DB) :
    Nat → Nat → Nat → List (User × Nat)
  | 0, _, _ => []
  | fuel + 1, currentUserId, level =>
    match lookupReferrer db currentUserId with
    | none => []
    | some u2 => (u2, level + 1) :: getReferrerChainAux db fuel u2.id (level + 1)

/-- `getReferrerChain(userId, maxLevel = 3)` (src/server.js:59-78). -/
def getReferrerChain (db : DB) (userId : Nat) (maxLevel : Nat) :
    List (User × Nat) :=
  getReferrerChainAux db maxLevel userId 0

/-! ## Team expander -/

/-- `SELECT id, email, referral_code, created_at FROM users WHERE
referred_by_code = $1` (src/server.js:88-91); the embedding keeps the full
row, the dropped columns are never read by the handlers. -/
def usersReferredBy (db : DB) (code : String) : List User :=
  db.users.filter fun u => u.referredByCode == some code

/-- The three team levels returned by `getTeamByLevel`. -/
structure Team where
  level1 : List User
  level2 : List User
  level3 : List User
deriving DecidableEq, Repr

/-- `getTeamByLevel(userId)` (src/server.js:80-111): level 1 is the direct
referrals; the nested loops accumulate, per level-1 member, its direct
referrals into level 2, and per such level-2 member its direct referrals
into level 3. -/
def getTeamByLevel (db : DB) (userId : Nat) : Team :=
  match db.users.find? fun u => u.id == userId with
  | none => ⟨[], [], []⟩
  | some user =>
    let level1 := usersReferredBy db user.referralCode
    ⟨level1,
     level1.flatMap fun u => usersReferredBy db u.referralCode,
     level1.flatMap fun u =>
       (usersReferredBy db u.referralCode).flatMap fun v =>
         usersReferredBy db v.referralCode⟩

/-! ## Commission accrual -/

/-- `REFERRAL_LEVELS` (src/server.js:27-31): the fixed tier-rate table;
`none` models the `undefined` of an absent key. -/
def REFERRAL_LEVELS : Nat → Option Rat
  | 1 => some 16
  | 2 => some 3
  | 3 => some 2
  | _ => none

/-- The `referral_earnings` rows inserted by `calculateReferralEarnings`
(src/server.js:113-127), one per chain entry, in chain order; serial ids
are assigned from `nextEarningId`.  On the chain produced with
`maxLevel = 3` every level is in the rate table, so the `getD 0` default
for `REFERRAL_LEVELS` is never taken. -/
def referralEarningRows (db : DB) (depositId userId : Nat) (amount : Rat)
    (now : Nat) : List Earning :=
  (getReferrerChain db userId 3).mapIdx fun i rl =>
    let percentage := (REFERRAL_LEVELS rl.2).getD 0
    { id := db.nextEarningId + i
      referrerId := rl.1.id
      referredUserId := userId
      depositId := depositId
      level := rl.2
      percentage := percentage
      amount := amount * percentage / 100
      status := .pending
      createdAt := now
      claimedAt := none }

/-- `calculateReferralEarnings(depositId, userId, amount)`
(src/server.js:113-127) as a state transformer. -/
def calculateReferralEarnings (db : DB) (depositId userId : Nat)
    (amount : Rat) (now : Nat) : DB :=
  let rows := referralEarningRows db depositId userId amount now
  { db with earnings := db.earnings ++ rows
            nextEarningId := db.nextEarningId + rows.length }

/-! ## `parseMoney` and its `parseFloat` collaborator -/

/-- The subset of JS values that reach `parseMoney` (src/server.js:286-291):
`null`, `undefined`, numbers and strings.  Numbers are modelled as `Rat`;
the monetary values the handlers feed in are `numeric` columns, which the
pg driver delivers as decimal strings, or plain JS numbers. -/
inductive JSValue where
  | null
  | undefined
  | num (x : Rat)
  | str (s : String)
deriving DecidableEq, Repr

/-- The digits value `d₁…dₖ ↦ Σ dᵢ·10^(k-i)` of a decimal digit list. -/
def decDigitsVal (l : List Char) : Nat :=
  l.foldl (fun n c => 10 * n + (c.toNat - '0'.toNat)) 0

/-- Exponent part of a JS float literal: optional sign then digits; an
ill-formed exponent is ignored (`parseFloat("1e") = 1`), modelled as `0`. -/
def jsParseExp (l : List Char) : Int :=
  let sgnRest : Int × List Char :=
    match l with
    | '-' :: r => (-1, r)
    | '+' :: r => (1, r)
    | _ => (1, l)
  let ds := sgnRest.2.takeWhile Char.isDigit
  if ds.isEmpty then 0 else sgnRest.1 * (decDigitsVal ds : Int)

/-- Embedding of JS `parseFloat`: skip leading whitespace, optional sign,
longest prefix `digits [. digits] [e|E exponent]` (at least one digit
before or after the dot); `none` models `NaN` when no digit is found.
Finite decimal notation only: the special `Infinity` literal, which never
occurs in stored monetary strings, is not modelled. -/
def jsParseFloat (s : String) : Option Rat :=
  let l := s.data.dropWhile Char.isWhitespace
  let sgnRest : Rat × List Char :=
    match l with
    | '-' :: r => (-1, r)
    | '+' :: r => (1, r)
    | _ => (1, l)
  let intPart := sgnRest.2.takeWhile Char.isDigit
  let rest1 := sgnRest.2.dropWhile Char.isDigit
  let fracRest : List Char × List Char :=
    match rest1 with
    | '.' :: r => (r.takeWhile Char.isDigit, r.dropWhile Char.isDigit)
    | _ => ([], rest1)
  if intPart.isEmpty ∧ fracRest.1.isEmpty then none
  else
    let mantissa : Rat :=
      (decDigitsVal intPart : Rat)
        + (decDigitsVal fracRest.1 : Rat) / (10 : Rat) ^ fracRest.1.length
    let exp : Int :=
      match fracRest.2 with
      | 'e' :: r => jsParseExp r
      | 'E' :: r => jsParseExp r
      | _ => 0
    some (sgnRest.1 * mantissa * (10 : Rat) ^ exp)

/-- `String(value).replace(/[$,]/g, '')` on a string value: drop every `$`
and `,` character. -/
def stripDollarComma (s : String) : String :=
  ⟨s.data.filter fun c => !(c == '$' || c == ',')⟩

/-- `parseMoney` (src/server.js:286-291).  `parseFloat(cleaned) || 0`
coalesces the falsy results (`NaN`, `0`, `-0`) to `0`: in the `Rat` model
that is `getD 0` on the optional parse (a parsed `0` is itself `0`). -/
def parseMoney : JSValue → Rat
  | .null => 0
  | .undefined => 0
  | .num x => x
  | .str s => (jsParseFloat (stripDollarComma s)).getD 0

/-! ## Email masking

Both src/server.js:222 and src/server.js:254-257 use
`email.replace(/(.{2})(.*)(@.*)/, '$1***$3')`.  On newline-free strings
(`.` does not match line terminators; emails contain none) this regex has a
leftmost match exactly when some `@` sits at index ≥ 2; the leftmost match
then starts at 0 and, `(.*)`  being greedy, `$3` starts at the last `@`.
So the replacement keeps the first two characters, inserts `***`, and keeps
everything from the last `@` on; with no such `@` the string is returned
unchanged. -/

/-- Index of the last occurrence of `c`, if any. -/
def lastIndexOfChar (c : Char) : List Char → Option Nat
  | [] => none
  | x :: xs =>
    match lastIndexOfChar c xs with
    | some k => some (k + 1)
    | none => if x == c then some 0 else none

/-- The masking regex replacement on a character list. -/
def maskChars (l : List Char) : List Char :=
  match lastIndexOfChar '@' l with
  | none => l
  | some i =>
    if 2 ≤ i then l.take 2 ++ '*' :: '*' :: '*' :: l.drop i else l

/-- `email.replace(/(.{2})(.*)(@.*)/, '$1***$3')`
(src/server.js:222 and 254-257). -/
def maskEmail (s : String) : String := ⟨maskChars s.data⟩

/-! ## Endpoint handlers -/

/-- The `pending`-row predicate of the claim handler's SQL
(`WHERE referrer_id = $1 AND status = 'pending'`). -/
def isPendingFor (uid : Nat) (e : Earning) : Bool :=
  e.referrerId == uid && e.status == .pending

/-- `SELECT COALESCE(SUM(amount::numeric), 0) ... WHERE referrer_id = $1
AND status = 'pending'` (src/server.js:359-362), followed by
`parseFloat(total) || 0`: the exact pending sum in the `Rat` model. -/
def pendingSum (db : DB) (uid : Nat) : Rat :=
  ((db.earnings.filter (isPendingFor uid)).map Earning.amount).sum

/-- The `UPDATE referral_earnings SET status = 'claimed', claimed_at = NOW()
WHERE referrer_id = $1 AND status = 'pending'` row transformer
(src/server.js:370-373). -/
def claimEarning (uid now : Nat) (e : Earning) : Earning :=
  if isPendingFor uid e then { e with status := .claimed, claimedAt := some now }
  else e

/-- The `UPDATE users SET balance = balance + $1 WHERE id = $2` row
transformer (src/server.js:375-378). -/
def bumpBalance (uid : Nat) (amt : Rat) (u : User) : User :=
  if u.id == uid then { u with balance := u.balance + amt } else u

/-- Outcomes of `POST /api/claim`. -/
inductive ClaimResult where
  /-- 400 `Email is required`. -/
  | emailRequired
  /-- 404 `User not found`. -/
  | userNotFound
  /-- 400 `No pending rewards to claim`. -/
  | nothingToClaim
  /-- The 500 path: the post-update re-fetch found no user, so reading
  `updatedUser.balance` would throw (unreachable in fact). -/
  | serverError
  /-- 200 with `claimedAmount` and `newBalance`. -/
  | ok (claimedAmount newBalance : Rat)
deriving DecidableEq, Repr

/-- `POST /api/claim` (src/server.js:345-394). -/
def apiClaim (db : DB) (email : String) (now : Nat) : ClaimResult × DB :=
  if email = "" then (.emailRequired, db)
  else
    match findUserByEmail db email with
    | none => (.userNotFound, db)
    | some user =>
      let pendingAmount := pendingSum db user.id
      if pendingAmount ≤ 0 then (.nothingToClaim, db)
      else
        let db2 : DB :=
          { db with earnings := db.earnings.map (claimEarning user.id now)
                    users := db.users.map (bumpBalance user.id pendingAmount) }
        match findUserByEmail db2 email with
        | none => (.serverError, db2)
        | some updatedUser => (.ok pendingAmount updatedUser.balance, db2)

/-- Outcomes of `POST /api/deposit`. -/
inductive DepositResult where
  /-- 400 `Email and amount are required` (`!email || !amount`). -/
  | validationError
  /-- 404 `User not found`. -/
  | userNotFound
  /-- 200 with `depositId` and `amount`. -/
  | ok (depositId : Nat) (amount : Rat)
deriving DecidableEq, Repr

/-- `POST /api/deposit` (src/server.js:396-431): insert a `'completed'`
deposit row, then accrue referral earnings for the depositor's chain.  The
JS guard `!email || !amount` rejects only a missing email and a
falsy (zero) amount. -/
def apiDeposit (db : DB) (email : String) (amount : Rat) (now : Nat) :
    DepositResult × DB :=
  if email = "" ∨ amount = 0 then (.validationError, db)
  else
    match findUserByEmail db email with
    | none => (.userNotFound, db)
    | some user =>
      let dep : Deposit :=
        { id := db.nextDepositId
          userId := user.id
          amount := amount
          status := "completed"
          createdAt := now }
      let db1 : DB :=
        { db with deposits := db.deposits ++ [dep]
                  nextDepositId := db.nextDepositId + 1 }
      (.ok dep.id amount, calculateReferralEarnings db1 dep.id user.id amount now)

/-- `GET /api/referral` (src/server.js:129-157), state part: get-or-create
the user for an email.  The response payload (code and link) reads the
found/created row and mutates nothing further. -/
def apiReferral (db : DB) (email : String) (now : Nat) : DB :=
  if email = "" then db
  else
    match findUserByEmail db email with
    | some _ => db
    | none => (createUser db email none now).2

/-- `POST /api/register` (src/server.js:159-206), state part: an existing
email is returned as-is; otherwise the supplied referral code is kept only
if truthy and resolving to an existing user, and a user is created. -/
def apiRegister (db : DB) (email : String) (referralCode : Option String)
    (now : Nat) : DB :=
  if email = "" then db
  else
    match findUserByEmail db email with
    | some _ => db
    | none =>
      let validReferralCode : Option String :=
        match referralCode with
        | some c =>
          if c = "" then none
          else if (findUserByReferralCode db c).isSome then some c else none
        | none => none
      (createUser db email validReferralCode now).2

/-- The per-level counts and total of the `GET /api/team` response. -/
structure TeamCounts where
  level1Count : Nat
  level2Count : Nat
  level3Count : Nat
  totalTeam : Nat
deriving DecidableEq, Repr

/-- `GET /api/team` (src/server.js:238-284), counts part: `none` models the
400/404 error responses; `totalTeam` is the sum the handler computes at
src/server.js:277. -/
def apiTeam (db : DB) (email : String) : Option TeamCounts :=
  if email = "" then none
  else
    match findUserByEmail db email with
    | none => none
    | some user =>
      let t := getTeamByLevel db user.id
      some ⟨t.level1.length, t.level2.length, t.level3.length,
            t.level1.length + t.level2.length + t.level3.length⟩

/-! ## Concrete fixtures used by the examples and witnesses -/

/-- Chain fixture: `A`, with no referrer. -/
def userA : User := ⟨1, "a@x.com", "100001", none, 0, 0⟩

/-- Chain fixture: `B`, referred by `A`. -/
def userB : User := ⟨2, "b@x.com", "100002", some "100001", 0, 0⟩

/-- Chain fixture: `C`, referred by `B`. -/
def userC : User := ⟨3, "c@x.com", "100003", some "100002", 0, 0⟩

/-- Chain fixture: the three-user state `A ← B ← C`. -/
def dbABC : DB := ⟨[userA, userB, userC], [], [], 4, 1, 1⟩

/-- Team fixture: the root user. -/
def userR : User := ⟨1, "root@x.com", "200000", none, 0, 0⟩

/-- Team fixture: first direct referral of the root. -/
def userD1 : User := ⟨2, "d1@x.com", "200001", some "200000", 0, 0⟩

/-- Team fixture: second direct referral of the root. -/
def userD2 : User := ⟨3, "d2@x.com", "200002", some "200000", 0, 0⟩

/-- Team fixture: referral of `userD1`. -/
def userG1 : User := ⟨4, "g1@x.com", "200003", some "200001", 0, 0⟩

/-- Team fixture: referral of `userD2`. -/
def userG2 : User := ⟨5, "g2@x.com", "200004", some "200002", 0, 0⟩

/-- Team fixture: a root with 2 direct referrals, each with 1 referral. -/
def dbTeam : DB := ⟨[userR, userD1, userD2, userG1, userG2], [], [], 6, 1, 1⟩

/-- Claim fixture: a user with balance 5. -/
def userW : User := ⟨1, "w@x.com", "300000", none, 5, 0⟩

/-- Claim fixture: a pending level-1 earning of 16 for `userW`. -/
def earnW1 : Earning := ⟨1, 1, 2, 1, 1, 16, 16, .pending, 0, none⟩

/-- Claim fixture: a pending level-2 earning of 3 for `userW`. -/
def earnW2 : Earning := ⟨2, 1, 2, 1, 2, 3, 3, .pending, 0, none⟩

/-- Claim fixture: `userW` with pending sum `16 + 3 = 19`. -/
def dbClaim : DB := ⟨[userW], [], [earnW1, earnW2], 2, 2, 3⟩

/-- Fixture: `userW` with no earnings at all. -/
def dbNoPending : DB := ⟨[userW], [], [], 2, 2, 1⟩

/-! ## Helper lemmas -/

/-- `lastIndexOfChar` misses a list free of the character. -/
theorem lastIndexOfChar_eq_none {c : Char} {l : List Char}
    (h : ∀ x ∈ l, x ≠ c) : lastIndexOfChar c l = none := by
  induction l with
  | nil => rfl
  | cons x xs ih =>
    have hx : x ≠ c := h x (List.mem_cons_self x xs)
    have hxs : lastIndexOfChar c xs = none :=
      ih fun y hy => h y (List.mem_cons_of_mem x hy)
    simp [lastIndexOfChar, hxs, hx]

/-- `lastIndexOfChar` finds the marked occurrence when the tail is free of
the character. -/
theorem lastIndexOfChar_append {c : Char} (l1 : List Char) {l2 : List Char}
    (h2 : ∀ x ∈ l2, x ≠ c) :
    lastIndexOfChar c (l1 ++ c :: l2) = some l1.length := by
  induction l1 with
  | nil => simp [lastIndexOfChar, lastIndexOfChar_eq_none h2]
  | cons x xs ih => simp [lastIndexOfChar, ih]

/-- Claim C9: the masking operation keeps the first 2 characters, replaces
the remainder of the local part up to `@` with `***`, and keeps the domain;
in particular `"johndoe@example.com"` masks to `"jo***@example.com"`. -/
theorem maskEmail_spec (lp dom : String)
    (hlen : 2 ≤ lp.length)
    (hlp : ∀ c ∈ lp.data, c ≠ '@' ∧ c ≠ '\n')
    (hdom : ∀ c ∈ dom.data, c ≠ '@' ∧ c ≠ '\n') :
    maskEmail (lp ++ "@" ++ dom) = String.mk (lp.data.take 2) ++ "***@" ++ dom
    ∧ maskEmail "johndoe@example.com" = "jo***@example.com" := by
  refine ⟨?_, by decide⟩
  apply String.ext
  have hd : (lp ++ "@" ++ dom).data = lp.data ++ '@' :: dom.data := by
    simp [String.data_append]
  have hlast : lastIndexOfChar '@' (lp.data ++ '@' :: dom.data)
      = some lp.data.length :=
    lastIndexOfChar_append _ fun x hx => (hdom x hx).1
  show maskChars (lp ++ "@" ++ dom).data = _
  rw [hd]
  unfold maskChars
  rw [hlast]
  dsimp only
  have hlen' : 2 ≤ lp.data.length := hlen
  rw [if_pos hlen', List.take_append_of_le_length hlen', List.drop_left]
  simp [String.data_append]

/-- Witness for `maskEmail_spec` at the spec's own example. -/
theorem maskEmail_spec_witness :
    maskEmail ("johndoe" ++ "@" ++ "example.com")
      = String.mk ("johndoe".data.take 2) ++ "***@" ++ "example.com" :=
  (maskEmail_spec "johndoe" "example.com" (by decide) (by decide) (by decide)).1

unseal Rat.add Rat.mul Rat.inv Rat.sub Rat.ofScientific in
/-- Claim C10: `parseMoney` is total over the JS values it receives and
never yields `NaN` (in the exact `Rat` model every result is a rational):
`null`/`undefined` map to `0`, numbers pass through unchanged, strings are
stripped of `$` and `,` and parsed, and a string that does not parse as a
number yields `0`. -/
theorem parseMoney_spec :
    parseMoney .null = 0
    ∧ parseMoney .undefined = 0
    ∧ (∀ x : Rat, parseMoney (.num x) = x)
    ∧ (∀ s : String, jsParseFloat (stripDollarComma s) = none →
        parseMoney (.str s) = 0)
    ∧ (∀ (s : String) (x : Rat), jsParseFloat (stripDollarComma s) = some x →
        parseMoney (.str s) = x)
    ∧ parseMoney (.str "$1,234.50") = 2469 / 2
    ∧ parseMoney (.str "abc") = 0
    ∧ parseMoney (.str "19.00") = 19 := by
  refine ⟨rfl, rfl, fun x => rfl, fun s h => ?_, fun s x h => ?_, ?_, ?_, ?_⟩
  · simp [parseMoney, h]
  · simp [parseMoney, h]
  · decide
  · decide
  · decide

/-- Witness for `parseMoney_spec`: the non-parsing-string case at `"abc"`. -/
theorem parseMoney_spec_witness : parseMoney (.str "abc") = 0 :=
  parseMoney_spec.2.2.2.1 "abc" (by decide)

/-- The chain walk never produces more entries than it has fuel. -/
theorem getReferrerChainAux_length_le (db : DB) (fuel : Nat) :
    ∀ uid lvl, (getReferrerChainAux db fuel uid lvl).length ≤ fuel := by
  induction fuel with
  | zero => intro uid lvl; simp [getReferrerChainAux]
  | succ f ih =>
    intro uid lvl
    unfold getReferrerChainAux
    cases h : lookupReferrer db uid with
    | none => simp
    | some u2 =>
      simpa using ih u2.id (lvl + 1)

/-- The levels recorded by the chain walk are consecutive from `lvl + 1`. -/
theorem getReferrerChainAux_levels (db : DB) (fuel : Nat) :
    ∀ uid lvl, (getReferrerChainAux db fuel uid lvl).map Prod.snd
      = List.range' (lvl + 1) (getReferrerChainAux db fuel uid lvl).length := by
  induction fuel with
  | zero => intro uid lvl; simp [getReferrerChainAux]
  | succ f ih =>
    intro uid lvl
    unfold getReferrerChainAux
    cases h : lookupReferrer db uid with
    | none => simp
    | some u2 =>
      simp only [List.map_cons, List.length_cons, List.range'_succ]
      rw [ih u2.id (lvl + 1)]

/-- The starting level only shifts the recorded levels of the chain walk. -/
theorem getReferrerChainAux_shift (db : DB) (fuel : Nat) :
    ∀ uid lvl, getReferrerChainAux db fuel uid (lvl + 1)
      = (getReferrerChainAux db fuel uid lvl).map fun p => (p.1, p.2 + 1) := by
  induction fuel with
  | zero => intro uid lvl; simp [getReferrerChainAux]
  | succ f ih =>
    intro uid lvl
    unfold getReferrerChainAux
    cases h : lookupReferrer db uid with
    | none => simp
    | some u2 =>
      simp only [List.map_cons]
      exact congrArg _ (ih u2.id (lvl + 1))

/-- Claim C4: `getReferrerChain(userId, maxLevel = 3)` walks up the
referred-by edges: each step looks up the user whose `referralCode` equals
the current user's `referredByCode`, levels are `1, 2, 3, …` in increasing
order, the walk stops when no referrer exists or after `maxLevel` entries,
so the result has at most `maxLevel` entries; for `C` referred by `B`
referred by `A` it returns `[(B, 1), (A, 2)]`, and `[]` for a user with no
referrer. -/
theorem getReferrerChain_spec :
    (∀ db uid maxLevel,
      (getReferrerChain db uid maxLevel).length ≤ maxLevel)
    ∧ (∀ db uid maxLevel,
        (getReferrerChain db uid maxLevel).map Prod.snd
          = List.range' 1 (getReferrerChain db uid maxLevel).length)
    ∧ (∀ db uid n, lookupReferrer db uid = none →
        getReferrerChain db uid (n + 1) = [])
    ∧ (∀ db uid n u2, lookupReferrer db uid = some u2 →
        getReferrerChain db uid (n + 1)
          = (u2, 1) :: ((getReferrerChain db u2.id n).map fun p => (p.1, p.2 + 1)))
    ∧ getReferrerChain dbABC 3 3 = [(userB, 1), (userA, 2)]
    ∧ getReferrerChain dbABC 1 3 = [] := by
  refine ⟨fun db uid maxLevel => getReferrerChainAux_length_le db maxLevel uid 0,
    fun db uid maxLevel => getReferrerChainAux_levels db maxLevel uid 0,
    fun db uid n h => ?_, fun db uid n u2 h => ?_, by decide, by decide⟩
  · simp only [getReferrerChain, getReferrerChainAux, h]
  · simp only [getReferrerChain, getReferrerChainAux, h]
    exact congrArg _ (getReferrerChainAux_shift db n u2.id 0)

/-- Witness for `getReferrerChain_spec`: the stop-at-no-referrer case for
user `A` of the chain fixture. -/
theorem getReferrerChain_spec_witness : getReferrerChain dbABC 1 3 = [] :=
  getReferrerChain_spec.2.2.1 dbABC 1 2 (by decide)

/-- The `i`-th chain entry carries level `i + 1`. -/
theorem getReferrerChain_get_snd (db : DB) (uid maxLevel i : Nat)
    (h : i < (getReferrerChain db uid maxLevel).length) :
    ((getReferrerChain db uid maxLevel).get ⟨i, h⟩).2 = i + 1 := by
  have hm := getReferrerChainAux_levels db maxLevel uid 0
  have hlen : i < (List.map Prod.snd (getReferrerChainAux db maxLevel uid 0)).length := by
    simpa [getReferrerChain] using h
  have h1 : (List.map Prod.snd (getReferrerChainAux db maxLevel uid 0))[i]?
      = some (1 + i) := by
    rw [hm]
    have : i < (getReferrerChainAux db maxLevel uid 0).length := h
    simp [List.getElem?_range', this]
  have h2 : (List.map Prod.snd (getReferrerChainAux db maxLevel uid 0))[i]?
      = some ((getReferrerChainAux db maxLevel uid 0)[i]).2 := by
    rw [List.getElem?_eq_getElem hlen]
    simp
  rw [h1] at h2
  have := Option.some.inj h2
  simpa [getReferrerChain, List.get_eq_getElem, Nat.add_comm] using this.symm

unseal Rat.add Rat.mul Rat.inv Rat.sub Rat.ofScientific in
/-- Claim C3: each deposit accrual creates exactly one pending
`referral_earnings` row per `(referrer, level)` entry of the depositor's
ancestor chain, with the percentage from the tier table
`{1 ↦ 16, 2 ↦ 3, 3 ↦ 2}`, amount `amount * percentage / 100`, linked to
the triggering deposit and depositor; an empty chain creates no rows and
leaves the state unchanged (not an error).  The spec's example: a deposit
of 100 by `C` (chain `[(B, 1), (A, 2)]`) yields exactly the two pending
rows 16 for `B` at level 1 and 3 for `A` at level 2. -/
theorem referralEarningRows_spec (db : DB) (depositId userId : Nat)
    (amount : Rat) (now : Nat) :
    (referralEarningRows db depositId userId amount now).length
      = (getReferrerChain db userId 3).length
    ∧ (∀ i (h1 : i < (getReferrerChain db userId 3).length)
        (h2 : i < (referralEarningRows db depositId userId amount now).length),
        ((referralEarningRows db depositId userId amount now).get ⟨i, h2⟩).referrerId
            = ((getReferrerChain db userId 3).get ⟨i, h1⟩).1.id
        ∧ ((referralEarningRows db depositId userId amount now).get ⟨i, h2⟩).level
            = ((getReferrerChain db userId 3).get ⟨i, h1⟩).2
        ∧ REFERRAL_LEVELS
              ((referralEarningRows db depositId userId amount now).get ⟨i, h2⟩).level
            = some ((referralEarningRows db depositId userId amount now).get ⟨i, h2⟩).percentage
        ∧ ((referralEarningRows db depositId userId amount now).get ⟨i, h2⟩).amount
            = amount * ((referralEarningRows db depositId userId amount now).get ⟨i, h2⟩).percentage / 100
        ∧ ((referralEarningRows db depositId userId amount now).get ⟨i, h2⟩).status
            = .pending
        ∧ ((referralEarningRows db depositId userId amount now).get ⟨i, h2⟩).depositId
            = depositId
        ∧ ((referralEarningRows db depositId userId amount now).get ⟨i, h2⟩).referredUserId
            = userId)
    ∧ (getReferrerChain db userId 3 = [] →
        referralEarningRows db depositId userId amount now = []
        ∧ calculateReferralEarnings db depositId userId amount now = db)
    ∧ referralEarningRows dbABC 77 3 100 5
        = [⟨1, 2, 3, 77, 1, 16, 16, .pending, 5, none⟩,
           ⟨2, 1, 3, 77, 2, 3, 3, .pending, 5, none⟩] := by
  refine ⟨by simp [referralEarningRows], fun i h1 h2 => ?_, fun hc => ?_, by decide⟩
  · have hget := List.get_mapIdx (getReferrerChain db userId 3)
      (fun i rl =>
        ({ id := db.nextEarningId + i
           referrerId := rl.1.id
           referredUserId := userId
           depositId := depositId
           level := rl.2
           percentage := (REFERRAL_LEVELS rl.2).getD 0
           amount := amount * (REFERRAL_LEVELS rl.2).getD 0 / 100
           status := .pending
           createdAt := now
           claimedAt := none } : Earning)) i h1
    have hrow : (referralEarningRows db depositId userId amount now).get ⟨i, h2⟩
        = { id := db.nextEarningId + i
            referrerId := ((getReferrerChain db userId 3).get ⟨i, h1⟩).1.id
            referredUserId := userId
            depositId := depositId
            level := ((getReferrerChain db userId 3).get ⟨i, h1⟩).2
            percentage := (REFERRAL_LEVELS ((getReferrerChain db userId 3).get ⟨i, h1⟩).2).getD 0
            amount := amount * (REFERRAL_LEVELS ((getReferrerChain db userId 3).get ⟨i, h1⟩).2).getD 0 / 100
            status := .pending
            createdAt := now
            claimedAt := none } := hget
    have hlvl : ((getReferrerChain db userId 3).get ⟨i, h1⟩).2 = i + 1 :=
      getReferrerChain_get_snd db userId 3 i h1
    have hi3 : i < 3 :=
      Nat.lt_of_lt_of_le h1 (getReferrerChainAux_length_le db 3 userId 0)
    refine ⟨by rw [hrow], by rw [hrow], ?_, by rw [hrow], by rw [hrow],
      by rw [hrow], by rw [hrow]⟩
    rw [hrow]
    simp only [hlvl]
    interval_cases i <;> rfl
  · have hrows : referralEarningRows db depositId userId amount now = [] := by
      simp [referralEarningRows, hc]
    refine ⟨hrows, ?_⟩
    simp [calculateReferralEarnings, hrows]

/-- Witness for `referralEarningRows_spec`: the pointwise description at the
first accrued row of the chain example, and the empty-chain case for `A`. -/
theorem referralEarningRows_spec_witness :
    ((referralEarningRows dbABC 77 3 100 5).get ⟨0, by decide⟩).referrerId
      = ((getReferrerChain dbABC 3 3).get ⟨0, by decide⟩).1.id
    ∧ referralEarningRows dbABC 77 1 100 5 = []
    ∧ calculateReferralEarnings dbABC 77 1 100 5 = dbABC :=
  ⟨((referralEarningRows_spec dbABC 77 3 100 5).2.1 0 (by decide) (by decide)).1,
   (referralEarningRows_spec dbABC 77 1 100 5).2.2.1 (by decide)⟩

/-- Claim C7: `getTeamByLevel` returns as level 1 exactly the users whose
`referredByCode` equals the user's `referralCode`, as level 2 the
concatenation of the level-1 sets of the level-1 members, as level 3 the
concatenation of the level-1 sets of the level-2 members, and the team
endpoint reports `totalTeam` as the sum of the three counts; a user with 2
direct referrals, each with 1 further referral, gets counts 2, 2, 0 and
`totalTeam = 4`. -/
theorem getTeamByLevel_spec (db : DB) (userId : Nat) (user : User)
    (hu : (db.users.find? fun u => u.id == userId) = some user) :
    (getTeamByLevel db userId).level1
      = db.users.filter (fun u => u.referredByCode == some user.referralCode)
    ∧ (getTeamByLevel db userId).level2
        = (getTeamByLevel db userId).level1.flatMap
            (fun m => db.users.filter fun u => u.referredByCode == some m.referralCode)
    ∧ (getTeamByLevel db userId).level3
        = (getTeamByLevel db userId).level2.flatMap
            (fun m => db.users.filter fun u => u.referredByCode == some m.referralCode)
    ∧ (∀ email t, apiTeam db email = some t →
        t.totalTeam = t.level1Count + t.level2Count + t.level3Count)
    ∧ apiTeam dbTeam "root@x.com" = some ⟨2, 2, 0, 4⟩ := by
  refine ⟨?_, ?_, ?_, fun email t h => ?_, by decide⟩
  · simp [getTeamByLevel, hu, usersReferredBy]
  · simp [getTeamByLevel, hu, usersReferredBy]
  · simp only [getTeamByLevel, hu]
    exact (List.flatMap_assoc _ _ _).symm
  · by_cases he : email = ""
    · simp [apiTeam, he] at h
    · rw [apiTeam, if_neg he] at h
      cases hf : findUserByEmail db email with
      | none => rw [hf] at h; exact absurd h (by simp)
      | some u =>
        rw [hf] at h
        have := Option.some.inj h
        rw [← this]

/-- Witness for `getTeamByLevel_spec`: the team fixture's counts. -/
theorem getTeamByLevel_spec_witness : apiTeam dbTeam "root@x.com" = some ⟨2, 2, 0, 4⟩ :=
  (getTeamByLevel_spec dbTeam 1 userR (by decide)).2.2.2.2

/-- `bumpBalance` changes neither the email… -/
theorem bumpBalance_email (uid : Nat) (amt : Rat) (u : User) :
    (bumpBalance uid amt u).email = u.email := by
  unfold bumpBalance
  split <;> rfl

/-- …nor the id of a user row. -/
theorem bumpBalance_id (uid : Nat) (amt : Rat) (u : User) :
    (bumpBalance uid amt u).id = u.id := by
  unfold bumpBalance
  split <;> rfl

/-- On the targeted user, `bumpBalance` adds exactly the amount. -/
theorem bumpBalance_self (amt : Rat) (u : User) :
    bumpBalance u.id amt u = { u with balance := u.balance + amt } := by
  simp [bumpBalance]

/-- An email lookup is oblivious to an email-preserving rewrite of the user
table and to the other tables. -/
theorem findUserByEmail_users_map (db : DB) (f : User → User) (email : String)
    (hf : ∀ u, (f u).email = u.email)
    (deposits' : List Deposit) (earnings' : List Earning) (n1 n2 n3 : Nat) :
    findUserByEmail ⟨db.users.map f, deposits', earnings', n1, n2, n3⟩ email
      = (findUserByEmail db email).map f := by
  unfold findUserByEmail
  dsimp only
  have hp : ((fun u : User => u.email == normalizeEmail email) ∘ f)
      = fun u : User => u.email == normalizeEmail email := by
    funext u
    simp [Function.comp, hf]
  rw [List.find?_map, hp]

/-- A claimed-over earning row is never pending again. -/
theorem isPendingFor_claimEarning (uid now : Nat) (e : Earning) :
    isPendingFor uid (claimEarning uid now e) = false := by
  unfold claimEarning
  split
  · simp [isPendingFor]
  · next h => simpa using h

/-- After the claim update, no pending rows for the claimer remain. -/
theorem filter_isPendingFor_map_claimEarning (l : List Earning) (uid now : Nat) :
    (l.map (claimEarning uid now)).filter (isPendingFor uid) = [] := by
  rw [List.filter_map]
  have : l.filter (isPendingFor uid ∘ claimEarning uid now) = [] := by
    rw [List.filter_eq_nil_iff]
    intro e _
    simp [Function.comp, isPendingFor_claimEarning]
  rw [this]
  rfl

/-- Reduction of a successful claim: with a found user and a positive
pending sum, `POST /api/claim` returns the pending sum and the bumped
balance, transitions the earnings by `claimEarning` and the users by
`bumpBalance`. -/
theorem apiClaim_success_eq (db : DB) (email : String) (now : Nat) (user : User)
    (hne : email ≠ "") (hu : findUserByEmail db email = some user)
    (hpos : 0 < pendingSum db user.id) :
    apiClaim db email now
      = (.ok (pendingSum db user.id) (user.balance + pendingSum db user.id),
         { db with
            earnings := db.earnings.map (claimEarning user.id now)
            users := db.users.map (bumpBalance user.id (pendingSum db user.id)) }) := by
  unfold apiClaim
  rw [if_neg hne, hu]
  dsimp only
  rw [if_neg (not_le.mpr hpos)]
  have href : findUserByEmail
      { db with
          earnings := db.earnings.map (claimEarning user.id now)
          users := db.users.map (bumpBalance user.id (pendingSum db user.id)) } email
      = some (bumpBalance user.id (pendingSum db user.id) user) := by
    have := findUserByEmail_users_map db
      (bumpBalance user.id (pendingSum db user.id)) email
      (bumpBalance_email user.id (pendingSum db user.id)) db.deposits
      (db.earnings.map (claimEarning user.id now))
      db.nextUserId db.nextDepositId db.nextEarningId
    rw [show ({ db with
          earnings := db.earnings.map (claimEarning user.id now)
          users := db.users.map (bumpBalance user.id (pendingSum db user.id)) } : DB)
        = ⟨db.users.map (bumpBalance user.id (pendingSum db user.id)), db.deposits,
           db.earnings.map (claimEarning user.id now),
           db.nextUserId, db.nextDepositId, db.nextEarningId⟩ from rfl]
    rw [this, hu]
    rfl
  rw [href]
  dsimp only
  rw [bumpBalance_self]

/-- Reduction of a claim with nothing to claim. -/
theorem apiClaim_nothing_eq (db : DB) (email : String) (now : Nat) (user : User)
    (hne : email ≠ "") (hu : findUserByEmail db email = some user)
    (hle : pendingSum db user.id ≤ 0) :
    apiClaim db email now = (.nothingToClaim, db) := by
  unfold apiClaim
  rw [if_neg hne, hu]
  dsimp only
  rw [if_pos hle]

/-- Claim C1: for an existing user with strictly positive pending sum,
`POST /api/claim` transitions every pending earning row of that referrer to
`claimed` with `claimedAt = now` (leaving all other rows unchanged),
increases exactly that user's stored balance by the pending sum (leaving
other users unchanged), and returns the claimed amount together with the
new balance. -/
theorem apiClaim_success_spec (db : DB) (email : String) (now : Nat) (user : User)
    (hne : email ≠ "") (hu : findUserByEmail db email = some user)
    (hpos : 0 < pendingSum db user.id) :
    (apiClaim db email now).1
      = .ok (pendingSum db user.id) (user.balance + pendingSum db user.id)
    ∧ (apiClaim db email now).2.earnings.length = db.earnings.length
    ∧ (∀ i (h1 : i < db.earnings.length)
        (h2 : i < (apiClaim db email now).2.earnings.length),
        (isPendingFor user.id (db.earnings.get ⟨i, h1⟩) = true →
          (apiClaim db email now).2.earnings.get ⟨i, h2⟩
            = { db.earnings.get ⟨i, h1⟩ with
                status := .claimed, claimedAt := some now })
        ∧ (isPendingFor user.id (db.earnings.get ⟨i, h1⟩) = false →
            (apiClaim db email now).2.earnings.get ⟨i, h2⟩
              = db.earnings.get ⟨i, h1⟩))
    ∧ (apiClaim db email now).2.users.length = db.users.length
    ∧ (∀ i (h1 : i < db.users.length)
        (h2 : i < (apiClaim db email now).2.users.length),
        ((db.users.get ⟨i, h1⟩).id = user.id →
          (apiClaim db email now).2.users.get ⟨i, h2⟩
            = { db.users.get ⟨i, h1⟩ with
                balance := (db.users.get ⟨i, h1⟩).balance + pendingSum db user.id })
        ∧ ((db.users.get ⟨i, h1⟩).id ≠ user.id →
            (apiClaim db email now).2.users.get ⟨i, h2⟩
              = db.users.get ⟨i, h1⟩)) := by
  rw [apiClaim_success_eq db email now user hne hu hpos]
  refine ⟨rfl, by simp, fun i h1 h2 => ⟨fun hp => ?_, fun hp => ?_⟩, by simp,
    fun i h1 h2 => ⟨fun hid => ?_, fun hid => ?_⟩⟩
  · have hp' : isPendingFor user.id db.earnings[i] = true := by
      simpa [List.get_eq_getElem] using hp
    simp [List.get_eq_getElem, List.getElem_map, claimEarning, hp']
  · have hp' : isPendingFor user.id db.earnings[i] = false := by
      simpa [List.get_eq_getElem] using hp
    simp [List.get_eq_getElem, List.getElem_map, claimEarning, hp']
  · have hid' : db.users[i].id = user.id := by
      simpa [List.get_eq_getElem] using hid
    simp [List.get_eq_getElem, List.getElem_map, bumpBalance, hid']
  · have hid' : ¬db.users[i].id = user.id := by
      simpa [List.get_eq_getElem] using hid
    simp [List.get_eq_getElem, List.getElem_map, bumpBalance, hid']

unseal Rat.add Rat.mul Rat.inv Rat.sub Rat.ofScientific in
/-- Witness for `apiClaim_success_spec`: claiming the fixture's pending
`16 + 3 = 19` onto balance 5. -/
theorem apiClaim_success_spec_witness :
    (apiClaim dbClaim "w@x.com" 9).1
      = .ok (pendingSum dbClaim 1) (userW.balance + pendingSum dbClaim 1)
    ∧ (apiClaim dbClaim "w@x.com" 9).2.earnings.get ⟨0, by decide⟩
      = { earnW1 with status := .claimed, claimedAt := some 9 } :=
  ⟨(apiClaim_success_spec dbClaim "w@x.com" 9 userW (by decide) (by decide)
      (by decide)).1,
   ((apiClaim_success_spec dbClaim "w@x.com" 9 userW (by decide) (by decide)
      (by decide)).2.2.1 0 (by decide) (by decide)).1 (by decide)⟩

/-- The post-claim re-fetch sees the balance-bumped user table. -/
theorem findUserByEmail_claimUpdate (db : DB) (email : String) (now uid : Nat)
    (amt : Rat) :
    findUserByEmail
      { db with earnings := db.earnings.map (claimEarning uid now)
                users := db.users.map (bumpBalance uid amt) } email
      = (findUserByEmail db email).map (bumpBalance uid amt) :=
  findUserByEmail_users_map db (bumpBalance uid amt) email
    (bumpBalance_email uid amt) db.deposits
    (db.earnings.map (claimEarning uid now))
    db.nextUserId db.nextDepositId db.nextEarningId

/-- After a claim, the claimer's pending sum is zero. -/
theorem pendingSum_claimUpdate (db : DB) (now uid : Nat) (amt : Rat) :
    pendingSum
      { db with earnings := db.earnings.map (claimEarning uid now)
                users := db.users.map (bumpBalance uid amt) } uid = 0 := by
  unfold pendingSum
  dsimp only
  rw [filter_isPendingFor_map_claimEarning]
  rfl

/-- Claim C2: for an existing user, `POST /api/claim` reports "nothing to
claim" exactly when the pending sum is `≤ 0`, and then changes no state;
and immediately after a successful claim a second claim reports "nothing
to claim" and changes no state. -/
theorem apiClaim_nothing_spec (db : DB) (email : String) (now now2 : Nat)
    (user : User) (hne : email ≠ "")
    (hu : findUserByEmail db email = some user) :
    ((apiClaim db email now).1 = .nothingToClaim ↔ pendingSum db user.id ≤ 0)
    ∧ (pendingSum db user.id ≤ 0 → (apiClaim db email now).2 = db)
    ∧ (0 < pendingSum db user.id →
        (apiClaim (apiClaim db email now).2 email now2).1 = .nothingToClaim
        ∧ (apiClaim (apiClaim db email now).2 email now2).2
            = (apiClaim db email now).2) := by
  rcases le_or_lt (pendingSum db user.id) 0 with hle | hpos
  · rw [apiClaim_nothing_eq db email now user hne hu hle]
    exact ⟨iff_of_true rfl hle, fun _ => rfl,
      fun hpos => absurd hle (not_le.mpr hpos)⟩
  · rw [apiClaim_success_eq db email now user hne hu hpos]
    have hu2 : findUserByEmail
        { db with earnings := db.earnings.map (claimEarning user.id now)
                  users := db.users.map (bumpBalance user.id (pendingSum db user.id)) }
        email = some (bumpBalance user.id (pendingSum db user.id) user) := by
      rw [findUserByEmail_claimUpdate, hu]
      rfl
    have hz : pendingSum
        { db with earnings := db.earnings.map (claimEarning user.id now)
                  users := db.users.map (bumpBalance user.id (pendingSum db user.id)) }
        (bumpBalance user.id (pendingSum db user.id) user).id ≤ 0 := by
      rw [bumpBalance_id, pendingSum_claimUpdate]
    have h2 := apiClaim_nothing_eq _ email now2 _ hne hu2 hz
    refine ⟨iff_of_false (by simp) (not_le.mpr hpos), fun h => absurd h (not_le.mpr hpos), fun _ => ?_⟩
    rw [h2]
    exact ⟨rfl, rfl⟩

unseal Rat.add Rat.mul Rat.inv Rat.sub Rat.ofScientific in
/-- Witness for `apiClaim_nothing_spec`: claiming the fixture's 19 and then
immediately claiming again reports "nothing to claim" and keeps the state. -/
theorem apiClaim_nothing_spec_witness :
    (apiClaim (apiClaim dbClaim "w@x.com" 9).2 "w@x.com" 10).1
      = .nothingToClaim
    ∧ (apiClaim (apiClaim dbClaim "w@x.com" 9).2 "w@x.com" 10).2
        = (apiClaim dbClaim "w@x.com" 9).2 :=
  (apiClaim_nothing_spec dbClaim "w@x.com" 9 10 userW (by decide) (by decide)).2.2
    (by decide)

/-- Equal lists have equal entries at equal positions. -/
theorem get_congr {α : Type} (l l2 : List α) (h : l = l2) (i : Nat)
    (h1 : i < l.length) (h2 : i < l2.length) :
    l.get ⟨i, h1⟩ = l2.get ⟨i, h2⟩ := by
  subst h
  rfl

/-- Claim C5: no state-mutating operation decreases any stored user
balance.  Get-or-create (`/api/referral`), registration and deposits leave
every existing user row — in particular its balance — unchanged, so the
balance strictly increases only through claim settlement; the claim
handler keeps every user's id and never decreases a balance. -/
theorem balance_monotone_spec :
    (∀ db email now i (h1 : i < db.users.length)
        (h2 : i < (apiReferral db email now).users.length),
        (apiReferral db email now).users.get ⟨i, h2⟩ = db.users.get ⟨i, h1⟩)
    ∧ (∀ db email rc now i (h1 : i < db.users.length)
        (h2 : i < (apiRegister db email rc now).users.length),
        (apiRegister db email rc now).users.get ⟨i, h2⟩ = db.users.get ⟨i, h1⟩)
    ∧ (∀ db email amount now,
        (apiDeposit db email amount now).2.users = db.users)
    ∧ (∀ db email now i (h1 : i < db.users.length)
        (h2 : i < (apiClaim db email now).2.users.length),
        ((apiClaim db email now).2.users.get ⟨i, h2⟩).id
            = (db.users.get ⟨i, h1⟩).id
        ∧ (db.users.get ⟨i, h1⟩).balance
            ≤ ((apiClaim db email now).2.users.get ⟨i, h2⟩).balance) := by
  refine ⟨fun db email now i h1 h2 => ?_, fun db email rc now i h1 h2 => ?_,
    fun db email amount now => ?_, fun db email now i h1 h2 => ?_⟩
  · by_cases he : email = ""
    · simp [apiReferral, he]
    · cases hf : findUserByEmail db email with
      | some u => simp [apiReferral, he, hf]
      | none =>
        simp only [apiReferral, he, hf, if_neg, ite_false, createUser,
          List.get_eq_getElem]
        exact List.getElem_append_left h1
  · by_cases he : email = ""
    · simp [apiRegister, he]
    · cases hf : findUserByEmail db email with
      | some u => simp [apiRegister, he, hf]
      | none =>
        simp only [apiRegister, he, hf, if_neg, ite_false, createUser,
          List.get_eq_getElem]
        exact List.getElem_append_left h1
  · by_cases hv : email = "" ∨ amount = 0
    · simp [apiDeposit, hv]
    · cases hf : findUserByEmail db email with
      | none => simp [apiDeposit, hv, hf]
      | some u => simp [apiDeposit, hv, hf, calculateReferralEarnings]
  · by_cases he : email = ""
    · simp [apiClaim, he]
    · cases hf : findUserByEmail db email with
      | none => simp [apiClaim, he, hf]
      | some user =>
        rcases le_or_lt (pendingSum db user.id) 0 with hle | hpos
        · have hg : (apiClaim db email now).2.users.get ⟨i, h2⟩
              = db.users.get ⟨i, h1⟩ :=
            get_congr _ _
              (by rw [apiClaim_nothing_eq db email now user he hf hle]) i h2 h1
          exact ⟨by rw [hg], by rw [hg]⟩
        · have hl : (apiClaim db email now).2.users
              = db.users.map (bumpBalance user.id (pendingSum db user.id)) := by
            rw [apiClaim_success_eq db email now user he hf hpos]
          have h2x : i < (db.users.map
              (bumpBalance user.id (pendingSum db user.id))).length := by
            simpa using h1
          have hg : (apiClaim db email now).2.users.get ⟨i, h2⟩
              = (db.users.map (bumpBalance user.id (pendingSum db user.id))).get
                  ⟨i, h2x⟩ :=
            get_congr _ _ hl i h2 h2x
          rw [hg]
          constructor
          · simp [List.get_eq_getElem, List.getElem_map, bumpBalance_id]
          · simp only [List.get_eq_getElem, List.getElem_map]
            unfold bumpBalance
            split
            · exact le_add_of_nonneg_right hpos.le
            · exact le_refl _

unseal Rat.add Rat.mul Rat.inv Rat.sub Rat.ofScientific in
/-- Witness for `balance_monotone_spec`: the deposit fixture at a concrete
state, and a concrete claim keeping the user's id. -/
theorem balance_monotone_spec_witness :
    (apiReferral dbClaim "w@x.com" 3).users.get ⟨0, by decide⟩
      = dbClaim.users.get ⟨0, by decide⟩
    ∧ ((apiClaim dbClaim "w@x.com" 3).2.users.get ⟨0, by decide⟩).id
      = (dbClaim.users.get ⟨0, by decide⟩).id :=
  ⟨balance_monotone_spec.1 dbClaim "w@x.com" 3 0 (by decide) (by decide),
   (balance_monotone_spec.2.2.2 dbClaim "w@x.com" 3 0 (by decide) (by decide)).1⟩

unseal Rat.add Rat.mul Rat.inv Rat.sub Rat.ofScientific in
/-- Counterexample to claim C6 as stated: the deposit guard
`!email || !amount` rejects only a missing/zero amount, so a deposit of
`-5` by an existing user is accepted and persisted with the strictly
negative amount `-5`. -/
theorem apiDeposit_negative_accepted :
    (apiDeposit dbNoPending "w@x.com" (-5) 0).1 = .ok 2 (-5)
    ∧ ((apiDeposit dbNoPending "w@x.com" (-5) 0).2.deposits.get
        ⟨0, by decide⟩).amount = -5
    ∧ ¬(0 < ((apiDeposit dbNoPending "w@x.com" (-5) 0).2.deposits.get
        ⟨0, by decide⟩).amount) := by
  decide

/-- Claim C6 (amended): every accepted deposit request appends exactly one
deposit row whose amount equals the requested amount, and that amount is
nonzero — the handler rejects only a missing email or a zero amount, so a
negative amount is accepted and stored as such. -/
theorem apiDeposit_amount_spec (db : DB) (email : String) (amount : Rat)
    (now : Nat) (depId : Nat) (a : Rat)
    (h : (apiDeposit db email amount now).1 = .ok depId a) :
    a = amount ∧ amount ≠ 0
    ∧ ∃ user, findUserByEmail db email = some user
        ∧ (apiDeposit db email amount now).2.deposits
            = db.deposits ++ [⟨db.nextDepositId, user.id, amount, "completed", now⟩] := by
  by_cases hv : email = "" ∨ amount = 0
  · simp [apiDeposit, hv] at h
  · cases hf : findUserByEmail db email with
    | none => simp [apiDeposit, hv, hf] at h
    | some user =>
      rw [apiDeposit, if_neg hv, hf] at h
      dsimp only at h
      injection h with hd ha
      refine ⟨ha.symm, fun h0 => hv (Or.inr h0), user, rfl, ?_⟩
      rw [apiDeposit, if_neg hv, hf]
      dsimp only
      simp [calculateReferralEarnings]

unseal Rat.add Rat.mul Rat.inv Rat.sub Rat.ofScientific in
/-- Witness for `apiDeposit_amount_spec` at an accepted deposit of 50. -/
theorem apiDeposit_amount_spec_witness :
    (50 : Rat) = 50 ∧ (50 : Rat) ≠ 0
    ∧ ∃ user, findUserByEmail dbNoPending "w@x.com" = some user
        ∧ (apiDeposit dbNoPending "w@x.com" 50 0).2.deposits
            = dbNoPending.deposits ++ [⟨2, user.id, 50, "completed", 0⟩] :=
  apiDeposit_amount_spec dbNoPending "w@x.com" 50 0 2 50 (by decide)

/-- Every character `hexDigitChar` can produce is one of the sixteen hex
digits (the out-of-range default is `'0'`, itself a hex digit). -/
theorem hexDigitChar_mem (n : Nat) : hexDigitChar n ∈ hexDigitChars := by
  unfold hexDigitChar
  rcases Nat.lt_or_ge n hexDigitChars.length with h | h
  · rw [List.getD_eq_getElem?_getD, List.getElem?_eq_getElem h]
    exact List.getElem_mem h
  · rw [List.getD_eq_getElem?_getD, List.getElem?_eq_none h]
    decide

/-- Every character of a hex digest is a hex digit. -/
theorem md5HexChars_mem (s : String) :
    ∀ c ∈ md5HexChars s, c ∈ hexDigitChars := by
  intro c hc
  unfold md5HexChars at hc
  rcases List.mem_flatMap.mp hc with ⟨b, _, hb⟩
  unfold byteToHexChars at hb
  simp only [List.mem_cons, List.not_mem_nil, or_false] at hb
  rcases hb with h | h <;> (rw [h]; exact hexDigitChar_mem _)

/-- A hex digit has a hex value. -/
theorem mem_hexDigitChars_isSome (c : Char) (h : c ∈ hexDigitChars) :
    (hexCharVal c).isSome = true := by
  fin_cases h <;> decide

/-- A hex digit is not whitespace. -/
theorem mem_hexDigitChars_not_ws (c : Char) (h : c ∈ hexDigitChars) :
    c.isWhitespace = false := by
  fin_cases h <;> decide

/-- `stripSign` is the identity (with sign `1`) on sign-free input. -/
theorem stripSign_no_sign (c : Char) (rest : List Char)
    (h1 : c ≠ '-') (h2 : c ≠ '+') :
    stripSign (c :: rest) = (1, c :: rest) := by
  unfold stripSign
  split
  · next heq => exact absurd (List.cons.inj heq).1 h1
  · next heq => exact absurd (List.cons.inj heq).1 h2
  · rfl

/-- `strip0x` is the identity on a hex-digit list (no second `x`/`X`). -/
theorem strip0x_hex (l : List Char) (h : ∀ c ∈ l, c ∈ hexDigitChars) :
    strip0x l = l := by
  cases l with
  | nil => rfl
  | cons c1 rest =>
    cases rest with
    | nil =>
      unfold strip0x
      split
      · next r2 heq => simp at heq
      · next r2 heq => simp at heq
      · rfl
    | cons c2 r =>
      have h2 := h c2 (by simp)
      have hx : c2 ≠ 'x' := by fin_cases h2 <;> decide
      have hX : c2 ≠ 'X' := by fin_cases h2 <;> decide
      unfold strip0x
      split
      · next r2 heq => exact absurd (List.cons.inj (List.cons.inj heq).2).1 hx
      · next r2 heq => exact absurd (List.cons.inj (List.cons.inj heq).2).1 hX
      · rfl

/-- `takeWhile` keeps a list every element of which satisfies the
predicate. -/
theorem takeWhile_all {α : Type} (p : α → Bool) (l : List α)
    (h : ∀ c ∈ l, p c = true) : l.takeWhile p = l := by
  induction l with
  | nil => rfl
  | cons x xs ih =>
    rw [List.takeWhile_cons, if_pos (h x (List.mem_cons_self x xs))]
    rw [ih fun c hc => h c (List.mem_cons_of_mem x hc)]

/-- On a non-empty all-hex-digit list, `parseInt(..., 16)` succeeds with
the hex value of the whole list. -/
theorem jsParseIntHex_hex (l : List Char) (hne : l ≠ [])
    (hl : ∀ c ∈ l, c ∈ hexDigitChars) :
    jsParseIntHex l = some (hexVal l : Int) := by
  cases l with
  | nil => exact absurd rfl hne
  | cons c rest =>
    have hc := hl c (List.mem_cons_self c rest)
    have hws : c.isWhitespace = false := mem_hexDigitChars_not_ws c hc
    have hminus : c ≠ '-' := by fin_cases hc <;> decide
    have hplus : c ≠ '+' := by fin_cases hc <;> decide
    unfold jsParseIntHex
    rw [List.dropWhile_cons, hws]
    simp only [Bool.false_eq_true, if_false]
    rw [stripSign_no_sign c rest hminus hplus]
    dsimp only
    rw [strip0x_hex _ hl,
      takeWhile_all _ _ fun d hd => mem_hexDigitChars_isSome d (hl d hd)]
    rw [if_neg (by simp)]
    rw [Int.one_mul]

/-- A hex digest renders to exactly 32 characters (16 bytes, 2 each). -/
theorem md5HexChars_length (s : String) : (md5HexChars s).length = 32 := by
  unfold md5HexChars md5Bytes
  simp [List.length_flatMap, byteToHexChars, List.range_succ]

/-- With enough fuel, `Nat.toDigitsCore` in base 10 produces exactly
`log₁₀ n + 1` digits in front of the accumulator. -/
theorem toDigitsCore_len10 (f : Nat) :
    ∀ (n : Nat) (l : List Char), n < f →
    (Nat.toDigitsCore 10 f n l).length = Nat.log 10 n + 1 + l.length := by
  induction f with
  | zero => exact fun n l h => absurd h (Nat.not_lt_zero n)
  | succ f ih =>
    intro n l h
    rw [Nat.toDigitsCore]
    by_cases h10 : n / 10 = 0
    · have hn10 : n < 10 := by omega
      rw [if_pos h10]
      have : Nat.log 10 n = 0 := Nat.log_eq_zero_iff.mpr (Or.inl hn10)
      simp [this]
      omega
    · rw [if_neg h10]
      have hge : 10 ≤ n := by omega
      have hlt : n / 10 < f := by omega
      rw [ih (n / 10) (Nat.digitChar (n % 10) :: l) hlt]
      rw [Nat.log_of_one_lt_of_le (by norm_num) hge]
      simp only [List.length_cons]
      omega

/-- The decimal rendering of `n` has `log₁₀ n + 1` digits. -/
theorem repr_len_eq (n : Nat) : (Nat.repr n).length = Nat.log 10 n + 1 := by
  unfold Nat.repr Nat.toDigits
  have := toDigitsCore_len10 (n + 1) n [] (Nat.lt_succ_self n)
  simpa [String.length, List.asString] using this

/-- A number in `[100000, 999999]` renders to exactly 6 decimal digits. -/
theorem repr_len_six (n : Nat) (h1 : 100000 ≤ n) (h2 : n ≤ 999999) :
    (Nat.repr n).length = 6 := by
  rw [repr_len_eq]
  have : Nat.log 10 n = 5 :=
    Nat.log_eq_of_pow_le_of_lt_pow (by norm_num; omega) (by norm_num; omega)
  omega

/-- Claim C8: `generateReferralCode` is a deterministic pure function of the
lowercased trimmed email — it MD5-hashes the normalized email, reads the
first 8 hex characters as an unsigned integer, reduces `% 900000` and adds
`100000` — and for every email the result is the 6-character decimal
numeral of a value in `[100000, 999999]`. -/
theorem generateReferralCode_spec :
    (∀ e1 e2 : String, normalizeEmail e1 = normalizeEmail e2 →
        generateReferralCode e1 = generateReferralCode e2)
    ∧ (∀ email : String, ∃ n : Nat,
        100000 ≤ n ∧ n ≤ 999999
        ∧ generateReferralCode email
            = Nat.repr n
        ∧ n = hexVal ((md5HexChars (normalizeEmail email)).take 8) % 900000
              + 100000
        ∧ (generateReferralCode email).length = 6) := by
  have key : ∀ email : String, generateReferralCode email
      = Nat.repr (hexVal ((md5HexChars (normalizeEmail email)).take 8) % 900000
          + 100000) := by
    intro email
    unfold generateReferralCode
    dsimp only
    have hmem : ∀ c ∈ (md5HexChars (normalizeEmail email)).take 8,
        c ∈ hexDigitChars :=
      fun c hc => md5HexChars_mem _ c (List.take_subset _ _ hc)
    have hne : (md5HexChars (normalizeEmail email)).take 8 ≠ [] := by
      have hl : ((md5HexChars (normalizeEmail email)).take 8).length = 8 := by
        simp [List.length_take, md5HexChars_length]
      intro h0
      rw [h0] at hl
      simp at hl
    rw [jsParseIntHex_hex _ hne hmem]
    show jsIntToString _ = _
    rw [show ((hexVal ((md5HexChars (normalizeEmail email)).take 8) : Int).tmod
          900000)
        = ((hexVal ((md5HexChars (normalizeEmail email)).take 8) % 900000 : Nat)
            : Int) from rfl]
    rw [show ((hexVal ((md5HexChars (normalizeEmail email)).take 8) % 900000
            : Nat) : Int) + 100000
        = ((hexVal ((md5HexChars (normalizeEmail email)).take 8) % 900000
              + 100000 : Nat) : Int) by push_cast; ring]
    unfold jsIntToString
    rw [if_neg (not_lt.mpr (Int.natCast_nonneg _)), Int.toNat_natCast]
  have hub : ∀ email : String,
      hexVal ((md5HexChars (normalizeEmail email)).take 8) % 900000 + 100000
        ≤ 999999 := by
    intro email
    have := Nat.mod_lt (hexVal ((md5HexChars (normalizeEmail email)).take 8))
      (show 0 < 900000 by norm_num)
    omega
  refine ⟨fun e1 e2 h => by unfold generateReferralCode; rw [h],
    fun email => ⟨_, Nat.le_add_left _ _, hub email, key email, rfl, ?_⟩⟩
  rw [key email]
  exact repr_len_six _ (Nat.le_add_left _ _) (hub email)

/-- Witness for `generateReferralCode_spec`: normalization-insensitivity at
a concrete pair of emails. -/
theorem generateReferralCode_spec_witness :
    generateReferralCode "A " = generateReferralCode "a" :=
  generateReferralCode_spec.1 "A " "a" (by decide)
